import Mathlib

/-!
Shallow embedding of `src/pyonvista/api.py` (pyOnvista, legacy synchronous
flavor): the HTTP transport (`Request`, `CachedRequest`), the on-disk pickle
cache, the instrument persistence mixin / shelve database, the HTML detail
parsing (`Instrument.update` and its `_parse_*` helpers), venue lookup
(`Instrument.get_notation_by`), the delta-encoded quote accumulation
(`Instrument.get_quotes`) and the JSONP repair step (`Instrument._prepare_json`).

Machine-level Python values are modelled as follows: `requests.Response`
becomes a `status`/`body` record (its truthiness, `Response.__bool__`, is
`status < 400`, i.e. `Response.ok`); `datetime` instants become `Int`
seconds, so `datetime.timedelta(days = v)` becomes `v * 86400`; Python
`dict`s become association lists; the pickle-file cache becomes a map from
the derived key to `(timestamp, response)`; raised exceptions become
`Except` errors.
-/

set_option autoImplicit false

namespace PyOnvista

/-- A `requests.Response`: status code plus payload text. -/
structure Resp where
  status : Nat
  body : String
  deriving DecidableEq, Repr

/-- `requests.Response.__bool__` / `.ok`: true exactly when `status < 400`. -/
def Resp.ok (r : Resp) : Bool := r.status < 400

/-- The live network: what `requests.get url` would return. -/
abbrev Net := String → Resp

/-- A Python `dict[str, str]`, e.g. the `Request._header` mapping. -/
abbrev Headers := List (String × String)

/-- `dict[k]`-as-lookup on an association list: first binding of `k`, if
any.  Python dicts bind each key once, so "first" is "the" binding. -/
def dictGet {V : Type} (d : List (String × V)) (k : String) : Option V :=
  match d with
  | [] => none
  | (k', v) :: rest => if k' = k then some v else dictGet rest k

/-- Removal of the binding of `k` from an association list. -/
def dictErase {V : Type} (d : List (String × V)) (k : String) :
    List (String × V) :=
  match d with
  | [] => []
  | (k', v) :: rest =>
      if k' = k then dictErase rest k else (k', v) :: dictErase rest k

/-- `dict.pop(k, None)`: the value bound to `k` (if any) together with the
mapping with `k` removed. -/
def dictPop {V : Type} (d : List (String × V)) (k : String) :
    Option V × List (String × V) :=
  (dictGet d k, dictErase d k)

/-- The keyword arguments `Request.request` hands to `requests.get`:
the values popped from the header dict for `headers`, `proxies`, `timeout`. -/
structure HttpCall where
  url : String
  headers : Option String
  proxies : Option String
  timeout : Option String
  deriving DecidableEq, Repr

/-- `Request.request` (api.py:82-99): pop `headers`, `proxies`, `timeout`
from the stored header dict, issue `requests.get`, raise
`requests.exceptions.HTTPError(status)` when `status_code >= 400`, and
otherwise return the response.  The result records the issued call, the
header dict after the destructive pops, and the outcome. -/
def Request.request (net : Net) (hdr : Headers) (url : String) :
    (HttpCall × Headers) × Except Nat Resp :=
  let ph := dictPop hdr "headers"
  let pp := dictPop ph.2 "proxies"
  let pt := dictPop pp.2 "timeout"
  let call : HttpCall := ⟨url, ph.1, pp.1, pt.1⟩
  let r := net url
  (⟨call, pt.2⟩, if r.status ≥ 400 then Except.error r.status else Except.ok r)

/-- The on-disk pickle cache: derived key ↦ `(timestamp, response)`.
The key for `url` is `md5(url)` (the directory/file split `hash[:2]/hash[2:]`
is a bijective re-spelling of the hash, so the full digest is the key). -/
abbrev Cache := String → Option (Int × Resp)

/-- `CachedRequest._load_cache` (api.py:119-126): look the derived key up;
`(None, None)` when the file does not exist. -/
def loadCache (md5 : String → String) (cache : Cache) (url : String) :
    Option (Int × Resp) :=
  cache (md5 url)

/-- `CachedRequest._dump_cache` (api.py:128-136): write `(now, response)` at
the derived key with `open(file, "xb")`, which raises `FileExistsError`
when an entry is already present.  The result is the raised-or-not outcome
together with the cache state afterwards (unchanged on the error). -/
def dumpCache (md5 : String → String) (cache : Cache) (now : Int)
    (url : String) (r : Resp) : Except Unit Unit × Cache :=
  if (cache (md5 url)).isSome then
    (Except.error (), cache)
  else
    (Except.ok (), fun k => if k = md5 url then some (now, r) else cache k)

/-- An exception escaping `CachedRequest.request`: the HTTP error from the
live fetch, or the `FileExistsError` from `_dump_cache`. -/
inductive ReqErr where
  | http (status : Nat)
  | fileExists
  deriving DecidableEq, Repr

/-- Outcome of one `CachedRequest.request` call: whether a live HTTP GET was
issued, the returned response or escaped exception, and the cache and header
states afterwards. -/
structure CResult where
  didLive : Bool
  result : Except ReqErr Resp
  cache : Cache
  header : Headers

/-- The live-fetch path of `CachedRequest.request`: `get()` via
`super().request`, then `_dump_cache`. -/
def liveFetch (md5 : String → String) (net : Net) (hdr : Headers)
    (cache : Cache) (now : Int) (url : String) : CResult :=
  match (Request.request net hdr url).2 with
  | Except.error s =>
      ⟨true, Except.error (ReqErr.http s), cache,
        (Request.request net hdr url).1.2⟩
  | Except.ok r =>
      match dumpCache md5 cache now url r with
      | (Except.error _, c) =>
          ⟨true, Except.error ReqErr.fileExists, c,
            (Request.request net hdr url).1.2⟩
      | (Except.ok _, c) =>
          ⟨true, Except.ok r, c, (Request.request net hdr url).1.2⟩

/-- `CachedRequest.request` (api.py:138-154): load the cache; when
`not response or (today - timestamp > timedelta(days = validity))` do the
live fetch and dump, otherwise return the cached response.  `not response`
is `requests.Response.__bool__`, i.e. `¬ response.ok`. -/
def CachedRequest.request (md5 : String → String) (net : Net)
    (validity : Int) (hdr : Headers) (cache : Cache) (now : Int)
    (url : String) : CResult :=
  match loadCache md5 cache url with
  | none => liveFetch md5 net hdr cache now url
  | some (ts, r) =>
      if ¬ r.ok ∨ now - ts > validity * 86400 then
        liveFetch md5 net hdr cache now url
      else
        ⟨false, Except.ok r, cache, hdr⟩

/-- Cache states the program itself can produce: every stored response
passed the `status_code >= 400` check in `Request.request` before being
dumped, so it is `ok`. -/
def WFCache (cache : Cache) : Prop :=
  ∀ k t r, cache k = some (t, r) → r.status < 400

theorem wfCache_empty : WFCache (fun _ => none) := by
  intro k t r h
  simp at h

/-- `CachedRequest.request` preserves the cache invariant: any response it
dumps came out of a successful `Request.request`, hence has `status < 400`. -/
theorem wfCache_preserved (md5 : String → String) (net : Net)
    (validity : Int) (hdr : Headers) (cache : Cache) (now : Int)
    (url : String) (hwf : WFCache cache) :
    WFCache (CachedRequest.request md5 net validity hdr cache now url).cache := by
  have hlive : WFCache (liveFetch md5 net hdr cache now url).cache := by
    unfold liveFetch Request.request
    by_cases hs : (net url).status ≥ 400
    · simp [hs]
      exact hwf
    · simp [hs]
      unfold dumpCache
      by_cases hc : (cache (md5 url)).isSome
      · simp [hc]
        exact hwf
      · simp [hc]
        intro k t r hk
        by_cases hk' : k = md5 url
        · simp [hk'] at hk
          have : r = net url := hk.2.symm
          subst this
          omega
        · simp [hk'] at hk
          exact hwf k t r hk
  unfold CachedRequest.request
  cases hload : loadCache md5 cache url with
  | none => simpa [hload] using hlive
  | some p =>
      simp only [hload]
      split
      · exact hlive
      · simpa using hwf

/-- The sequence of HTTP calls issued by repeated `Request.request` calls on
one instance, threading the mutated header dict from call to call. -/
def requestCalls (net : Net) : Headers → List String → List HttpCall
  | _, [] => []
  | hdr, url :: rest =>
      let rr := Request.request net hdr url
      rr.1.1 :: requestCalls net rr.1.2 rest

theorem dictGet_erase_self {V : Type} (d : List (String × V)) (k : String) :
    dictGet (dictErase d k) k = none := by
  induction d with
  | nil => rfl
  | cons p rest ih =>
      by_cases h : p.1 = k
      · simp [dictErase, h, ih]
      · simp [dictErase, h, dictGet, ih]

theorem dictGet_erase_none {V : Type} (d : List (String × V)) (k k' : String)
    (h : dictGet d k = none) :
    dictGet (dictErase d k') k = none := by
  induction d with
  | nil => rfl
  | cons p rest ih =>
      by_cases hk : p.1 = k
      · simp [dictGet, hk] at h
      · simp [dictGet, hk] at h
        by_cases hq : p.1 = k'
        · simp [dictErase, hq]
          exact ih h
        · simp [dictErase, hq, dictGet, hk]
          exact ih h

/-- After `Request.request`, none of the three popped keys remains bound. -/
theorem request_header_consumed (net : Net) (hdr : Headers) (url : String) :
    dictGet ((Request.request net hdr url).1.2) "headers" = none ∧
    dictGet ((Request.request net hdr url).1.2) "proxies" = none ∧
    dictGet ((Request.request net hdr url).1.2) "timeout" = none := by
  refine ⟨?_, ?_, ?_⟩
  · exact dictGet_erase_none _ _ _ (dictGet_erase_none _ _ _
      (dictGet_erase_self hdr "headers"))
  · exact dictGet_erase_none _ _ _ (dictGet_erase_self _ "proxies")
  · exact dictGet_erase_self _ "timeout"

/-- A call made with a header dict lacking the three keys passes all three
as `None`, and leaves them absent. -/
theorem request_call_of_absent (net : Net) (hdr : Headers) (url : String)
    (h1 : dictGet hdr "headers" = none) (h2 : dictGet hdr "proxies" = none)
    (h3 : dictGet hdr "timeout" = none) :
    ((Request.request net hdr url).1.1).headers = none ∧
    ((Request.request net hdr url).1.1).proxies = none ∧
    ((Request.request net hdr url).1.1).timeout = none ∧
    dictGet ((Request.request net hdr url).1.2) "headers" = none ∧
    dictGet ((Request.request net hdr url).1.2) "proxies" = none ∧
    dictGet ((Request.request net hdr url).1.2) "timeout" = none := by
  refine ⟨h1, ?_, ?_, ?_⟩
  · show dictGet (dictErase hdr "headers") "proxies" = none
    exact dictGet_erase_none _ _ _ h2
  · show dictGet (dictErase (dictErase hdr "headers") "proxies") "timeout" = none
    exact dictGet_erase_none _ _ _ (dictGet_erase_none _ _ _ h3)
  · exact request_header_consumed net hdr url

/-- C9: `Request.request` destructively pops `headers`, `proxies` and
`timeout` from the stored header dict, so after the first call the dict no
longer binds any of them, and every subsequent call through the same
instance is issued with all three settings `None`. -/
theorem c9_request_pops_header (net : Net) (hdr : Headers) (url : String)
    (urls : List String) :
    (dictGet ((Request.request net hdr url).1.2) "headers" = none ∧
     dictGet ((Request.request net hdr url).1.2) "proxies" = none ∧
     dictGet ((Request.request net hdr url).1.2) "timeout" = none) ∧
    (∀ c ∈ requestCalls net ((Request.request net hdr url).1.2) urls,
      c.headers = none ∧ c.proxies = none ∧ c.timeout = none) := by
  refine ⟨request_header_consumed net hdr url, ?_⟩
  obtain ⟨h1, h2, h3⟩ := request_header_consumed net hdr url
  generalize (Request.request net hdr url).1.2 = h at h1 h2 h3
  clear hdr
  induction urls generalizing h with
  | nil =>
      intro c hc
      simp [requestCalls] at hc
  | cons u rest ih =>
      intro c hc
      obtain ⟨hc1, hc2, hc3, hn1, hn2, hn3⟩ :=
        request_call_of_absent net h u h1 h2 h3
      simp only [requestCalls, List.mem_cons] at hc
      cases hc with
      | inl he => rw [he]; exact ⟨hc1, hc2, hc3⟩
      | inr hm => exact ih _ hn1 hn2 hn3 c hm

/-- C7: `Request.request` raises `HTTPError(status)` exactly when the
response status is `>= 400`, and returns the response unmodified when the
status is `< 400`. -/
theorem c7_request_http_error (net : Net) (hdr : Headers) (url : String) :
    ((Request.request net hdr url).2 = Except.error (net url).status ↔
      (net url).status ≥ 400) ∧
    ((net url).status < 400 →
      (Request.request net hdr url).2 = Except.ok (net url)) := by
  unfold Request.request
  by_cases h : (net url).status ≥ 400
  · simp [h]
  · simp [h]

theorem c7_witness :
    (Request.request (fun _ => ⟨500, "oops"⟩) [("timeout", "5")] "u").2
        = Except.error 500 ∧
    (Request.request (fun _ => ⟨200, "ok"⟩) [] "u").2
        = Except.ok ⟨200, "ok"⟩ := by
  constructor
  · exact (c7_request_http_error (fun _ => ⟨500, "oops"⟩)
      [("timeout", "5")] "u").1.mpr (by decide)
  · exact (c7_request_http_error (fun _ => ⟨200, "ok"⟩) [] "u").2 (by decide)

theorem liveFetch_didLive (md5 : String → String) (net : Net)
    (hdr : Headers) (cache : Cache) (now : Int) (url : String) :
    (liveFetch md5 net hdr cache now url).didLive = true := by
  unfold liveFetch
  cases h : (Request.request net hdr url).2 with
  | error s => rfl
  | ok r =>
      cases hd : dumpCache md5 cache now url r with
      | mk e c => cases e <;> simp [hd]

theorem cachedRequest_eq_some (md5 : String → String) (net : Net)
    (validity : Int) (hdr : Headers) (cache : Cache) (now : Int)
    (url : String) (ts : Int) (r : Resp)
    (hload : cache (md5 url) = some (ts, r)) :
    CachedRequest.request md5 net validity hdr cache now url =
      if ¬ r.ok ∨ now - ts > validity * 86400 then
        liveFetch md5 net hdr cache now url
      else ⟨false, Except.ok r, cache, hdr⟩ := by
  unfold CachedRequest.request loadCache
  rw [hload]

theorem cachedRequest_eq_none (md5 : String → String) (net : Net)
    (validity : Int) (hdr : Headers) (cache : Cache) (now : Int)
    (url : String) (hload : cache (md5 url) = none) :
    CachedRequest.request md5 net validity hdr cache now url =
      liveFetch md5 net hdr cache now url := by
  unfold CachedRequest.request loadCache
  rw [hload]

/-- C3: within the validity window a cached fetch returns the cached
response and issues no live HTTP call; on a missing or expired entry it
always issues a live HTTP call.  The hypothesis `WFCache` is the invariant
(established by `wfCache_empty` and `wfCache_preserved`) that every entry
the program ever stores holds a response with status `< 400`. -/
theorem c3_cache_validity (md5 : String → String) (net : Net)
    (validity : Int) (hdr : Headers) (cache : Cache) (now : Int)
    (url : String) (hwf : WFCache cache) :
    (∀ ts r, cache (md5 url) = some (ts, r) →
      now - ts ≤ validity * 86400 →
      (CachedRequest.request md5 net validity hdr cache now url).didLive
          = false ∧
      (CachedRequest.request md5 net validity hdr cache now url).result
          = Except.ok r) ∧
    (cache (md5 url) = none →
      (CachedRequest.request md5 net validity hdr cache now url).didLive
          = true) ∧
    (∀ ts r, cache (md5 url) = some (ts, r) →
      now - ts > validity * 86400 →
      (CachedRequest.request md5 net validity hdr cache now url).didLive
          = true) := by
  refine ⟨?_, ?_, ?_⟩
  · intro ts r hload hfresh
    have hok : r.ok = true := by
      have := hwf (md5 url) ts r hload
      simpa [Resp.ok] using this
    have hcond : ¬ (¬ r.ok ∨ now - ts > validity * 86400) := by
      simp [hok]
      omega
    rw [cachedRequest_eq_some md5 net validity hdr cache now url ts r hload,
      if_neg hcond]
    exact ⟨rfl, rfl⟩
  · intro hload
    rw [cachedRequest_eq_none md5 net validity hdr cache now url hload]
    exact liveFetch_didLive md5 net hdr cache now url
  · intro ts r hload hstale
    have hcond : ¬ r.ok ∨ now - ts > validity * 86400 := Or.inr hstale
    rw [cachedRequest_eq_some md5 net validity hdr cache now url ts r hload,
      if_pos hcond]
    exact liveFetch_didLive md5 net hdr cache now url

/-- A concrete well-formed cache with one entry, stored at time 0 under the
key of `"u"`, holding an OK response. -/
def cacheU : Cache :=
  fun k => if k = "u" then some (0, ⟨200, "old"⟩) else none

theorem cacheU_wf : WFCache cacheU := by
  intro k t r h
  unfold cacheU at h
  by_cases hk : k = "u"
  · simp [hk] at h
    rcases h with ⟨h1, h2⟩
    subst h2
    decide
  · simp [hk] at h

theorem c3_witness :
    ((CachedRequest.request (fun s => s) (fun _ => ⟨200, "fresh"⟩) 1 []
        cacheU 100 "u").didLive = false ∧
     (CachedRequest.request (fun s => s) (fun _ => ⟨200, "fresh"⟩) 1 []
        cacheU 100 "u").result = Except.ok ⟨200, "old"⟩) ∧
    (CachedRequest.request (fun s => s) (fun _ => ⟨200, "fresh"⟩) 1 []
        cacheU 100 "v").didLive = true ∧
    (CachedRequest.request (fun s => s) (fun _ => ⟨200, "fresh"⟩) 1 []
        cacheU 100000000 "u").didLive = true := by
  refine ⟨?_, ?_, ?_⟩
  · exact (c3_cache_validity (fun s => s) (fun _ => ⟨200, "fresh"⟩) 1 []
      cacheU 100 "u" cacheU_wf).1 0 ⟨200, "old"⟩ (by decide) (by decide)
  · exact (c3_cache_validity (fun s => s) (fun _ => ⟨200, "fresh"⟩) 1 []
      cacheU 100 "v" cacheU_wf).2.1 (by decide)
  · exact (c3_cache_validity (fun s => s) (fun _ => ⟨200, "fresh"⟩) 1 []
      cacheU 100000000 "u" cacheU_wf).2.2 0 ⟨200, "old"⟩ (by decide)
      (by decide)

/-- C1 (code bug): on a cache entry older than the validity window,
`CachedRequest.request` performs the live fetch but then `_dump_cache`
opens the still-existing cache file with mode `"xb"`, so the call raises
`FileExistsError` instead of storing the fresh payload and returning it.
Here: entry stored at time 0, validity 1 day, now far past the window,
live fetch succeeds with status 200 — the call errors. -/
theorem c1_stale_refresh_raises :
    (CachedRequest.request (fun s => s) (fun _ => ⟨200, "fresh"⟩) 1 []
        cacheU 100000000 "u").result = Except.error ReqErr.fileExists ∧
    (CachedRequest.request (fun s => s) (fun _ => ⟨200, "fresh"⟩) 1 []
        cacheU 100000000 "u").cache "u" = some (0, ⟨200, "old"⟩) := by
  constructor <;> rfl

/-- C6: `_dump_cache` on a key whose entry already exists raises
`FileExistsError` (from `open(file, "xb")`) and leaves the cache — in
particular the previously stored entry — unchanged. -/
theorem c6_store_collision (md5 : String → String) (cache : Cache)
    (now : Int) (url : String) (r : Resp)
    (h : (cache (md5 url)).isSome) :
    (dumpCache md5 cache now url r).1 = Except.error () ∧
    (dumpCache md5 cache now url r).2 = cache := by
  simp [dumpCache, h]

theorem c6_witness :
    (dumpCache (fun s => s) cacheU 5 "u" ⟨200, "new"⟩).1 = Except.error () ∧
    (dumpCache (fun s => s) cacheU 5 "u" ⟨200, "new"⟩).2 = cacheU :=
  c6_store_collision (fun s => s) cacheU 5 "u" ⟨200, "new"⟩ (by decide)

theorem c9_witness :
    ((Request.request (fun _ => Resp.mk 200 "ok")
        (Request.request (fun _ => Resp.mk 200 "ok")
          [("headers", "h"), ("proxies", "p"), ("timeout", "5")] "a").1.2
        "b").1.1).headers = none ∧
    ((Request.request (fun _ => Resp.mk 200 "ok")
        (Request.request (fun _ => Resp.mk 200 "ok")
          [("headers", "h"), ("proxies", "p"), ("timeout", "5")] "a").1.2
        "b").1.1).proxies = none ∧
    ((Request.request (fun _ => Resp.mk 200 "ok")
        (Request.request (fun _ => Resp.mk 200 "ok")
          [("headers", "h"), ("proxies", "p"), ("timeout", "5")] "a").1.2
        "b").1.1).timeout = none :=
  (c9_request_pops_header (fun _ => Resp.mk 200 "ok")
    [("headers", "h"), ("proxies", "p"), ("timeout", "5")] "a" ["b"]).2
    _ (by decide)

/-! ## Instrument persistence (`InstrumentPersistenceMixin`,
`InstrumentDatabase._construct`)

An instrument's state is its `__dict__`: an association list from attribute
name to (pickled) value, the value type left abstract. -/

/-- `InstrumentPersistenceMixin.save` (api.py:168-172): pop `_html_element`
from `__dict__`, store the remaining dict in the shelve under the isin,
then put `_html_element` back on the live object.  The value stored in the
database is the dict without the `_html_element` binding. -/
def save_stored {V : Type} (d : List (String × V)) : List (String × V) :=
  dictErase d "_html_element"

/-- `InstrumentDatabase._construct` (api.py:409-413):
`Instrument.__new__(Instrument)` makes an object with an empty `__dict__`
and runs no `__init__`; `obj.__dict__.update(cls_dict)` then makes the
dict exactly the stored one.  The first component records the urls fetched
while reconstructing: none — `_construct` never touches the network. -/
def construct {V : Type} (stored : List (String × V)) :
    List String × List (String × V) :=
  ([], stored)

/-- C2 counterexample: an instrument state holding an `_html_element`
binding (as every instrument does after a successful `update`, since the
parsers touch the `html_element` property) does not round-trip: the
reconstructed state is missing the `_html_element` attribute. -/
theorem c2_roundtrip_drops_html_element :
    (construct (save_stored
        [("_isin", "DE0007664039"), ("_html_element", "lxml-root")])).2
      ≠ [("_isin", "DE0007664039"), ("_html_element", "lxml-root")] := by
  decide

theorem dictGet_erase_ne {V : Type} (d : List (String × V)) (k k' : String)
    (h : k ≠ k') :
    dictGet (dictErase d k') k = dictGet d k := by
  induction d with
  | nil => rfl
  | cons p rest ih =>
      by_cases hq : p.1 = k'
      · have hne : ¬ k' = k := fun he => h he.symm
        simp [dictErase, hq, dictGet, hne, ih]
      · simp [dictErase, hq, dictGet, ih]

/-- C2 (amended): saving a detailed instrument to the shelve and
reconstructing it through `InstrumentDatabase._construct` restores every
attribute except `_html_element`, which is absent from the reconstructed
state (it was popped before storing); the reconstruction performs no
network request. -/
theorem c2_save_construct (V : Type) (d : List (String × V)) (k : String)
    (hk : k ≠ "_html_element") :
    dictGet (construct (save_stored d)).2 k = dictGet d k ∧
    dictGet (construct (save_stored d)).2 "_html_element" = none ∧
    (construct (save_stored d)).1 = [] := by
  refine ⟨?_, ?_, rfl⟩
  · exact dictGet_erase_ne d k "_html_element" hk
  · exact dictGet_erase_self d "_html_element"

theorem c2_save_construct_witness :
    dictGet (construct (save_stored
        [("_isin", "DE0007664039"), ("_html_element", "lxml-root")])).2
        "_isin" = some "DE0007664039" ∧
    dictGet (construct (save_stored
        [("_isin", "DE0007664039"), ("_html_element", "lxml-root")])).2
        "_html_element" = none ∧
    (construct (save_stored
        [("_isin", "DE0007664039"), ("_html_element", "lxml-root")])).1
      = [] :=
  c2_save_construct String
    [("_isin", "DE0007664039"), ("_html_element", "lxml-root")]
    "_isin" (by decide)

/-! ## Venue lookup (`Instrument.get_notation_by`) -/

/-- The `Notation` dataclass (api.py:58-63): venue id, market name,
exchange acronym. -/
structure Notation where
  id : String
  market : String
  exchange : String
  deriving DecidableEq, Repr

/-- Python `xs[i]` on a list: `IndexError` when out of range. -/
def pyIndex {α : Type} (xs : List α) (i : Nat) : Except Unit α :=
  match xs.get? i with
  | some x => Except.ok x
  | none => Except.error ()

/-- `Instrument.get_notation_by` (api.py:317-322): list comprehension over
the instrument's venue list filtered by exchange acronym, then `[0]`. -/
def get_notation_by (notations : List Notation) (exchange : String) :
    Except Unit Notation :=
  pyIndex (notations.filter (fun n => n.exchange == exchange)) 0

theorem find?_eq_filter_head {α : Type} (p : α → Bool) (l : List α) :
    l.find? p = (l.filter p).head? := by
  induction l with
  | nil => rfl
  | cons a t ih =>
      cases ha : p a with
      | true =>
          simp only [List.find?, List.filter, ha]
          rfl
      | false =>
          simp only [List.find?, List.filter, ha]
          exact ih

/-- C10: when no venue in the list carries the requested exchange acronym,
`get_notation_by` raises `IndexError` (it never returns `None`, despite
its documented `Notation or None` result); when at least one match exists
it returns the first matching venue. -/
theorem c10_get_notation_by (ns : List Notation) (ex : String) :
    ((∀ n ∈ ns, n.exchange ≠ ex) →
      get_notation_by ns ex = Except.error ()) ∧
    (∀ n, ns.find? (fun m => m.exchange == ex) = some n →
      get_notation_by ns ex = Except.ok n) := by
  constructor
  · intro hnone
    have hfil : ns.filter (fun n => n.exchange == ex) = [] := by
      rw [List.filter_eq_nil_iff]
      intro a ha
      simpa using hnone a ha
    unfold get_notation_by
    rw [hfil]
    rfl
  · intro n hfind
    rw [find?_eq_filter_head (fun m => m.exchange == ex) ns] at hfind
    cases hfil : ns.filter (fun m => m.exchange == ex) with
    | nil =>
        rw [hfil] at hfind
        cases hfind
    | cons b l =>
        rw [hfil] at hfind
        simp at hfind
        unfold get_notation_by
        rw [hfil]
        simp [pyIndex, hfind]

theorem c10_witness :
    get_notation_by [] "GER" = Except.error () ∧
    get_notation_by
        [⟨"1", "Frankfurt", "FRA"⟩, ⟨"2", "Xetra", "GER"⟩,
         ⟨"3", "Tradegate", "GER"⟩] "GER"
      = Except.ok ⟨"2", "Xetra", "GER"⟩ := by
  constructor
  · exact (c10_get_notation_by [] "GER").1 (by simp)
  · exact (c10_get_notation_by
      [⟨"1", "Frankfurt", "FRA"⟩, ⟨"2", "Xetra", "GER"⟩,
       ⟨"3", "Tradegate", "GER"⟩] "GER").2 ⟨"2", "Xetra", "GER"⟩ (by decide)

/-! ## HTML detail parsing (`Instrument.update` and the `_parse_*` helpers)

A detail page is modelled by the result lists of the fixed xpath queries
the parsers run against it; each `_parse_*` then indexes or splits those
lists exactly as the source does. -/

/-- The xpath query results of one instrument detail page. -/
structure Page where
  exchangeTexts : List String
  exchangeHrefs : List String
  symbolTexts : List String
  nameTitles : List String
  wknValues : List String
  typeScripts : List String
  sectorTexts : List String
  deriving DecidableEq, Repr

/-- The fields a completed `update` writes (and then saves). -/
structure ParsedFields where
  notations : List Notation
  symbol : String
  name : String
  wkn : String
  type : String
  sector : String
  default_notation : Notation
  deriving DecidableEq, Repr

/-- Python `s.split(sep, 1)[1]`: the remainder after the first occurrence
of `sep`; `IndexError` when `sep` does not occur. -/
def pySplitOnce (s sep : String) : Except Unit String :=
  match s.splitOn sep with
  | [] => Except.error ()
  | [_] => Except.error ()
  | _ :: rest => Except.ok (String.intercalate sep rest)

/-- Python `s.split(sep, 1)[0]`: the part before the first occurrence of
`sep` (the whole string when `sep` does not occur). -/
def pySplitHead (s sep : String) : String :=
  match s.splitOn sep with
  | [] => s
  | x :: _ => x

/-- Python's three-list `zip`: truncates to the shortest. -/
def zip3 {α β γ δ : Type} (f : α → β → γ → δ) :
    List α → List β → List γ → List δ
  | a :: as, b :: bs, c :: cs => f a b c :: zip3 f as bs cs
  | _, _, _ => []

/-- `Instrument._parse_notations` (api.py:267-282): market names from the
exchanges layer (filtered, stripped), venue ids as the part after `=` of
each href (`IndexError` when an href has no `=`), exchange acronyms via the
markets mapping with the default exchange as fallback, zipped into
`Notation` records. -/
def parse_notations (mapping : List (String × String)) (dflt : String)
    (p : Page) : Except Unit (List Notation) := do
  let markets := (p.exchangeTexts.filter (fun m => m ≠ " ")).map
    (fun m => m.trim)
  let ids ← p.exchangeHrefs.mapM (fun h => pyIndex (h.splitOn "=") 1)
  let exchanges := markets.map (fun m => (dictGet mapping m).getD dflt)
  pure (zip3 Notation.mk ids markets exchanges)

/-- `Instrument._parse_symbol` (api.py:284-285). -/
def parse_symbol (p : Page) : Except Unit String := pyIndex p.symbolTexts 0

/-- `Instrument._parse_name` (api.py:287-288). -/
def parse_name (p : Page) : Except Unit String := pyIndex p.nameTitles 0

/-- `Instrument._parse_wkn` (api.py:290-291). -/
def parse_wkn (p : Page) : Except Unit String := pyIndex p.wknValues 0

/-- `Instrument._parse_sector` (api.py:299-300). -/
def parse_sector (p : Page) : Except Unit String := pyIndex p.sectorTexts 0

/-- `Instrument._parse_type` (api.py:293-297): first script text, the part
after `"type: "`, up to the next comma, apostrophes removed. -/
def parse_type (p : Page) : Except Unit String := do
  let s ← pyIndex p.typeScripts 0
  let rest ← pySplitOnce s "type: "
  pure ((pySplitHead rest ",").replace "'" "")

/-- `Instrument.update` (api.py:251-265): run all parsers in source order,
then `get_notation_by(default_exchange)`, then save.  Any raised
`IndexError` propagates and aborts the update before the save; a returned
`ParsedFields` means the update completed (and saved) all fields. -/
def Instrument.update (mapping : List (String × String)) (dflt : String)
    (p : Page) : Except Unit ParsedFields := do
  let ns ← parse_notations mapping dflt p
  let symbol ← parse_symbol p
  let name ← parse_name p
  let wkn ← parse_wkn p
  let ty ← parse_type p
  let sector ← parse_sector p
  let dn ← get_notation_by ns dflt
  pure ⟨ns, symbol, name, wkn, ty, sector, dn⟩

theorem exbind_error {α β : Type} (f : α → Except Unit β) :
    (Except.error () >>= f) = (Except.error () : Except Unit β) := rfl

theorem exbind_ok {α β : Type} (a : α) (f : α → Except Unit β) :
    (Except.ok a >>= f) = f a := rfl

theorem eunit {α : Type} (x : Except Unit α) :
    x = Except.error () ∨ ∃ a, x = Except.ok a := by
  cases x with
  | error e => cases e; exact Or.inl rfl
  | ok a => exact Or.inr ⟨a, rfl⟩

theorem pyIndex_nil {α : Type} (i : Nat) :
    pyIndex ([] : List α) i = Except.error () := rfl

theorem zip3_nil_mid {α β γ δ : Type} (f : α → β → γ → δ) (l : List α)
    (c : List γ) : zip3 f l [] c = [] := by
  cases l <;> rfl

/-- Either `update` raised, or every parsing step succeeded. -/
theorem update_err_or_all_ok (mapping : List (String × String))
    (dflt : String) (p : Page) :
    Instrument.update mapping dflt p = Except.error () ∨
    ∃ ns symbol name wkn ty sector dn,
      parse_notations mapping dflt p = Except.ok ns ∧
      parse_symbol p = Except.ok symbol ∧
      parse_name p = Except.ok name ∧
      parse_wkn p = Except.ok wkn ∧
      parse_type p = Except.ok ty ∧
      parse_sector p = Except.ok sector ∧
      get_notation_by ns dflt = Except.ok dn := by
  rcases eunit (parse_notations mapping dflt p) with h1 | ⟨ns, h1⟩
  · exact Or.inl (by simp [Instrument.update, h1, exbind_error])
  rcases eunit (parse_symbol p) with h2 | ⟨symbol, h2⟩
  · exact Or.inl (by simp [Instrument.update, h1, h2, exbind_error, exbind_ok])
  rcases eunit (parse_name p) with h3 | ⟨name, h3⟩
  · exact Or.inl (by
      simp [Instrument.update, h1, h2, h3, exbind_error, exbind_ok])
  rcases eunit (parse_wkn p) with h4 | ⟨wkn, h4⟩
  · exact Or.inl (by
      simp [Instrument.update, h1, h2, h3, h4, exbind_error, exbind_ok])
  rcases eunit (parse_type p) with h5 | ⟨ty, h5⟩
  · exact Or.inl (by
      simp [Instrument.update, h1, h2, h3, h4, h5, exbind_error, exbind_ok])
  rcases eunit (parse_sector p) with h6 | ⟨sector, h6⟩
  · exact Or.inl (by
      simp [Instrument.update, h1, h2, h3, h4, h5, h6, exbind_error,
        exbind_ok])
  rcases eunit (get_notation_by ns dflt) with h7 | ⟨dn, h7⟩
  · exact Or.inl (by
      simp [Instrument.update, h1, h2, h3, h4, h5, h6, h7, exbind_error,
        exbind_ok])
  exact Or.inr ⟨ns, symbol, name, wkn, ty, sector, dn,
    h1, h2, h3, h4, h5, h6, h7⟩

/-- With no venue texts, `_parse_notations` (if it does not raise first)
yields an empty venue list. -/
theorem parse_notations_of_no_markets (mapping : List (String × String))
    (dflt : String) (p : Page) (h : p.exchangeTexts = []) (ns : List Notation)
    (hok : parse_notations mapping dflt p = Except.ok ns) : ns = [] := by
  rcases eunit (p.exchangeHrefs.mapM (fun s => pyIndex (s.splitOn "=") 1))
    with hm | ⟨ids, hm⟩
  · rw [parse_notations] at hok
    rw [h] at hok
    rw [hm, exbind_error] at hok
    cases hok
  · rw [parse_notations] at hok
    rw [h] at hok
    rw [hm, exbind_ok] at hok
    simp [zip3_nil_mid, pure, Except.pure] at hok
    exact hok

/-- C5: when any required field's structural query yields zero matches —
the venue list, symbol, name, WKN, type script or sector query — the
normalization `Instrument.update` raises an `IndexError`-equivalent
instead of completing; it never returns a partially populated record (a
missing venue list surfaces through the final `get_notation_by`, which
indexes `[0]` into an empty filter result). -/
theorem c5_update_all_or_nothing (mapping : List (String × String))
    (dflt : String) (p : Page)
    (h : p.exchangeTexts = [] ∨ p.symbolTexts = [] ∨ p.nameTitles = [] ∨
         p.wknValues = [] ∨ p.typeScripts = [] ∨ p.sectorTexts = []) :
    Instrument.update mapping dflt p = Except.error () := by
  rcases update_err_or_all_ok mapping dflt p with herr | hall
  · exact herr
  exfalso
  obtain ⟨ns, symbol, name, wkn, ty, sector, dn,
    h1, h2, h3, h4, h5, h6, h7⟩ := hall
  rcases h with h | h | h | h | h | h
  · have hns : ns = [] := parse_notations_of_no_markets mapping dflt p h ns h1
    rw [hns] at h7
    cases h7
  · rw [parse_symbol, h, pyIndex_nil] at h2
    cases h2
  · rw [parse_name, h, pyIndex_nil] at h3
    cases h3
  · rw [parse_wkn, h, pyIndex_nil] at h4
    cases h4
  · rw [parse_type, h] at h5
    rw [show pyIndex ([] : List String) 0 = Except.error () from rfl,
      exbind_error] at h5
    cases h5
  · rw [parse_sector, h, pyIndex_nil] at h6
    cases h6

/-- A detail page whose sector query comes back empty but whose other
queries all match. -/
def pageNoSector : Page :=
  ⟨["Xetra"], ["aktien?notation=123"], ["VOW"], ["Volkswagen"],
    ["766403"], ["var chart = \x7b type: 'stock', foo: 1\x7d;"], []⟩

theorem c5_witness :
    Instrument.update [("Xetra", "GER")] "GER" pageNoSector
      = Except.error () :=
  c5_update_all_or_nothing [("Xetra", "GER")] "GER" pageNoSector
    (Or.inr (Or.inr (Or.inr (Or.inr (Or.inr rfl)))))

/-! ## Quote accumulation (`Instrument.get_quotes`) -/

/-- One raw OHLCV row `[timestamp, open, high, low, close, volume]` as
delivered by `_prepare_json` and read through the itemgetters
(api.py:31-37).  `get_quotes` does no arithmetic on the price/volume
entries, so they are carried as integers. -/
structure Row where
  ts : Int
  open_ : Int
  high : Int
  low : Int
  close : Int
  volume : Int
  deriving DecidableEq, Repr

/-- The `InstrumentQuote` dataclass (api.py:47-55), with the timestamp kept
as the accumulated epoch integer handed to `datetime.fromtimestamp`. -/
structure InstrumentQuote where
  resolution : String
  timestamp : Int
  open_ : Int
  high : Int
  low : Int
  close : Int
  volume : Int
  deriving DecidableEq, Repr

/-- The accumulation loop of `get_quotes` (api.py:340-351): running
`timestamp += get_timestamp(quote)`, one `InstrumentQuote` per row. -/
def accumQuotes (resolution : String) : Int → List Row → List InstrumentQuote
  | _, [] => []
  | t, r :: rest =>
      ⟨resolution, t + r.ts, r.open_, r.high, r.low, r.close, r.volume⟩ ::
        accumQuotes resolution (t + r.ts) rest

/-- `Instrument.get_quotes` from the prepared recordset on
(api.py:339-352): `next(iter(raw_quotes))` draws one element from a fresh
iterator, so it skips nothing for the subsequent `for` loop — but it
raises `StopIteration` when the recordset is empty; then the loop
accumulates from `timestamp = 0`. -/
def get_quotes_rows (resolution : String) (rows : List Row) :
    Except Unit (List InstrumentQuote) :=
  match rows with
  | [] => Except.error ()
  | _ :: _ => Except.ok (accumQuotes resolution 0 rows)

/-- C4 counterexample: on an empty recordset `get_quotes` raises
`StopIteration` (from `next(iter(raw_quotes))`) instead of producing the
empty quote list. -/
theorem c4_empty_recordset_raises :
    get_quotes_rows "week" [] = Except.error () := rfl

theorem accumQuotes_length (res : String) (t : Int) (rows : List Row) :
    (accumQuotes res t rows).length = rows.length := by
  induction rows generalizing t with
  | nil => rfl
  | cons r rest ih => simp [accumQuotes, ih]

theorem accumQuotes_get_ts (res : String) (t : Int) (rows : List Row)
    (i : Nat) (hi : i < (accumQuotes res t rows).length) :
    ((accumQuotes res t rows).get ⟨i, hi⟩).timestamp
      = t + ((rows.take (i + 1)).map Row.ts).sum := by
  induction rows generalizing t i with
  | nil => simp [accumQuotes] at hi
  | cons r rest ih =>
      cases i with
      | zero => simp [accumQuotes]
      | succ j =>
          have hj : j < (accumQuotes res (t + r.ts) rest).length := by
            simpa [accumQuotes] using hi
          have := ih (t + r.ts) j hj
          simp only [accumQuotes, List.get_cons_succ, List.take, List.map,
            List.sum_cons] at this ⊢
          rw [this]
          ring

theorem accumQuotes_map_ts_chain (res : String) (t : Int) (rows : List Row)
    (h : ∀ r ∈ rows, 0 ≤ r.ts) :
    List.Chain' (fun a b => a ≤ b)
      ((accumQuotes res t rows).map (fun q => q.timestamp)) := by
  induction rows generalizing t with
  | nil => simp [accumQuotes]
  | cons r rest ih =>
      rw [accumQuotes]
      rw [List.map_cons, List.chain'_cons']
      constructor
      · intro y hy
        cases rest with
        | nil => simp [accumQuotes] at hy
        | cons r2 rest2 =>
            simp [accumQuotes] at hy
            have h2 : 0 ≤ r2.ts := h r2 (by simp)
            change t + r.ts ≤ y
            omega
      · exact ih (t + r.ts) (fun x hx => h x (List.mem_cons_of_mem r hx))

/-- C4 (amended): for every nonempty recordset, `get_quotes` produces one
quote per row, the i-th quote's timestamp is the running sum of the
timestamp deltas of rows 0..i, and with non-negative deltas the timestamps
are non-decreasing; on the empty recordset it raises `StopIteration`
instead (see the counterexample). -/
theorem c4_delta_accumulation (res : String) (rows : List Row)
    (hne : rows ≠ []) :
    ∃ qs, get_quotes_rows res rows = Except.ok qs ∧
      qs.length = rows.length ∧
      (∀ i, (hi : i < qs.length) →
        (qs.get ⟨i, hi⟩).timestamp = ((rows.take (i + 1)).map Row.ts).sum) ∧
      ((∀ r ∈ rows, 0 ≤ r.ts) →
        List.Chain' (fun a b => a ≤ b)
          (qs.map (fun q => q.timestamp))) := by
  cases rows with
  | nil => exact absurd rfl hne
  | cons r rest =>
      refine ⟨accumQuotes res 0 (r :: rest), rfl,
        accumQuotes_length res 0 (r :: rest), ?_, ?_⟩
      · intro i hi
        have := accumQuotes_get_ts res 0 (r :: rest) i hi
        simpa using this
      · intro h
        exact accumQuotes_map_ts_chain res 0 (r :: rest) h

theorem c4_witness :
    ∃ qs,
      get_quotes_rows "week"
          [⟨5, 10, 20, 1, 15, 100⟩, ⟨3, 11, 21, 2, 16, 200⟩]
        = Except.ok qs ∧
      qs.length = 2 ∧
      (∀ i, (hi : i < qs.length) →
        (qs.get ⟨i, hi⟩).timestamp
          = (([⟨5, 10, 20, 1, 15, 100⟩,
               (⟨3, 11, 21, 2, 16, 200⟩ : Row)].take (i + 1)).map
              Row.ts).sum) ∧
      ((∀ r ∈ [⟨5, 10, 20, 1, 15, 100⟩, (⟨3, 11, 21, 2, 16, 200⟩ : Row)],
          0 ≤ r.ts) →
        List.Chain' (fun a b => a ≤ b) (qs.map (fun q => q.timestamp))) :=
  c4_delta_accumulation "week"
    [⟨5, 10, 20, 1, 15, 100⟩, ⟨3, 11, 21, 2, 16, 200⟩] (by decide)

/-! ## JSONP repair (`Instrument._prepare_json`)

The claim is about string surgery, so Python `str` values are modelled as
`List Char` with the Python string methods implemented on them. -/

/-- Python `s.replace(p, q)`: every non-overlapping occurrence, scanning
left to right.  (The source only calls it with the nonempty patterns
`"data"` and `")"`; on an empty pattern this model returns `s`.) -/
def replaceAll (p q : List Char) (s : List Char) : List Char :=
  if hp : p = [] then s
  else
    match s with
    | [] => []
    | a :: rest =>
        if p.isPrefixOf (a :: rest) then
          q ++ replaceAll p q ((a :: rest).drop p.length)
        else
          a :: replaceAll p q rest
termination_by s.length
decreasing_by
  · simp only [List.length_drop, List.length_cons]
    cases p with
    | nil => exact absurd rfl hp
    | cons b bs => simp; omega
  · simp

/-- Python `s.split(sep)` for a one-character separator: the chunks
between occurrences, with empty chunks kept (never the empty list). -/
def splitCh (c : Char) : List Char → List (List Char)
  | [] => [[]]
  | a :: rest =>
      match splitCh c rest with
      | [] => [[]]
      | g :: gs => if a = c then [] :: g :: gs else (a :: g) :: gs

/-- `sep.join(chunks)` for a one-character separator. -/
def joinSep (c : Char) : List (List Char) → List Char
  | [] => []
  | [x] => x
  | x :: y :: rest => x ++ c :: joinSep c (y :: rest)

/-- Python `s.rsplit(sep, m)[0]` for a one-character separator: everything
before the last `min m (number of separators)` separators. -/
def rsplitHead (c : Char) (m : Nat) (s : List Char) : List Char :=
  let ps := splitCh c s
  joinSep c (ps.take (ps.length - min m (ps.length - 1)))

/-- Python `s.rstrip(c)` for a one-character strip set. -/
def rstripCh (c : Char) (s : List Char) : List Char :=
  (s.reverse.dropWhile (fun a => a = c)).reverse

def dataPat : List Char := ['d', 'a', 't', 'a']

def dataQuoted : List Char := ['"', 'd', 'a', 't', 'a', '"']

/-- `Instrument._prepare_json` (api.py:354-362) up to the `json.loads`:
replace `data` with `"data"`, take the piece after the first `(` (Python
`split("(")[1]`, `IndexError` when there is no `(`), delete every `)`,
keep what precedes the last five newlines (`rsplit("\n", 5)[0]`), strip
trailing commas, append `}`. -/
def prepare_json_text (raw : List Char) : Except Unit (List Char) :=
  match pyIndex (splitCh '(' (replaceAll dataPat dataQuoted raw)) 1 with
  | Except.error e => Except.error e
  | Except.ok j2 =>
      Except.ok
        (rstripCh ',' (rsplitHead '\n' 5 (replaceAll [')'] [] j2))
          ++ ['\x7d'])

/-- JSON recordset rows as literal number tokens: a row `[1,2.5,-3]` is the
list of its entry tokens; the token text is kept verbatim (the source's
`json.loads` turns them into numbers, which the accumulation then carries
through untouched). -/
def renderRow (row : List (List Char)) : List Char :=
  '[' :: (joinSep ',' row ++ [']'])

/-- The text between the recordset's outer brackets. -/
def rowsBody (rows : List (List (List Char))) : List Char :=
  joinSep ',' (rows.map renderRow)

/-- A JSONP chart payload of the expected shape:
`callback({data:[rows]` followed by trailing noise lines (which hold the
closing `)` and `}` of the wrapper among other junk). -/
def mkChartPayload (cb : List Char) (rows : List (List (List Char)))
    (noise : List Char) : List Char :=
  cb ++ '(' :: '\x7b' :: (dataPat ++ ':' :: '[' ::
    (rowsBody rows ++ ']' :: noise))

/-- Five trailing noise lines, each preceded by a newline. -/
def mkNoise (n1 n2 n3 n4 n5 : List Char) : List Char :=
  '\n' :: (n1 ++ '\n' :: (n2 ++ '\n' :: (n3 ++ '\n' :: (n4 ++ '\n' :: n5))))

/-- The canonical JSON serialization of `\x7b"data": [rows]\x7d`. -/
def renderRecordset (rows : List (List (List Char))) : List Char :=
  '\x7b' :: (dataQuoted ++ ':' :: '[' :: (rowsBody rows ++ [']', '\x7d']))

/-- Characters that may appear in a number token. -/
def numChar (c : Char) : Bool := c.isDigit || c = '.' || c = '-'

/-- A well-formed number token: nonempty, made of number characters. -/
def WFLit (lit : List Char) : Prop := lit ≠ [] ∧ ∀ c ∈ lit, numChar c = true

def WFRows (rows : List (List (List Char))) : Prop :=
  ∀ row ∈ rows, row ≠ [] ∧ ∀ lit ∈ row, WFLit lit

/-- A trailing noise line: no newline of its own, no `data` fragment, no
`(` (so the callback wrapper's `(` stays unique). -/
def WFNoiseLine (n : List Char) : Prop := '\n' ∉ n ∧ 'd' ∉ n ∧ '(' ∉ n

theorem isPrefixOf_cons_neq (c a : Char) (cs rest : List Char)
    (h : ¬ c = a) : (c :: cs).isPrefixOf (a :: rest) = false := by
  simp [List.isPrefixOf, h]

theorem isPrefixOf_self_append (l z : List Char) :
    l.isPrefixOf (l ++ z) = true := by
  induction l with
  | nil => simp
  | cons a as ih => simp [List.isPrefixOf, ih]

theorem replaceAll_of_not_mem (c : Char) (cs q s : List Char)
    (h : c ∉ s) : replaceAll (c :: cs) q s = s := by
  induction s with
  | nil => simp [replaceAll]
  | cons a rest ih =>
      have hca : ¬ c = a := by
        intro he
        exact h (by simp [he])
      have hrest : c ∉ rest := fun hm => h (List.mem_cons_of_mem a hm)
      rw [replaceAll]
      simp [isPrefixOf_cons_neq c a cs rest hca, ih hrest]

theorem replaceAll_append (c : Char) (cs q x y : List Char) (hx : c ∉ x) :
    replaceAll (c :: cs) q (x ++ y) = x ++ replaceAll (c :: cs) q y := by
  induction x with
  | nil => rfl
  | cons a xs ih =>
      have hca : ¬ c = a := by
        intro he
        exact hx (by simp [he])
      have hxs : c ∉ xs := fun hm => hx (List.mem_cons_of_mem a hm)
      rw [List.cons_append, replaceAll]
      simp only [isPrefixOf_cons_neq c a cs (xs ++ y) hca,
        Bool.false_eq_true, if_false]
      rw [ih hxs]
      simp

theorem replaceAll_pat (c : Char) (cs q z : List Char) :
    replaceAll (c :: cs) q ((c :: cs) ++ z) = q ++ replaceAll (c :: cs) q z := by
  have hpre : (c :: cs).isPrefixOf (c :: (cs ++ z)) = true := by
    have := isPrefixOf_self_append (c :: cs) z
    simpa using this
  have hdrop : (c :: (cs ++ z)).drop (c :: cs).length = z := by
    have := List.drop_left (c :: cs) z
    simpa using this
  rw [List.cons_append, replaceAll]
  simp [hpre, hdrop]

theorem replaceAll_paren (c : Char) (s : List Char) :
    replaceAll [c] [] s = s.filter (fun a => a ≠ c) := by
  induction s with
  | nil => simp [replaceAll]
  | cons a rest ih =>
      by_cases hca : c = a
      · subst hca
        rw [replaceAll]
        simp [List.isPrefixOf, ih]
      · rw [replaceAll]
        simp only [isPrefixOf_cons_neq c a [] rest hca,
          Bool.false_eq_true, if_false]
        rw [ih]
        have : ¬ a = c := fun he => hca he.symm
        simp [List.filter_cons, this]

theorem splitCh_ne_nil (c : Char) (s : List Char) : splitCh c s ≠ [] := by
  cases s with
  | nil => simp [splitCh]
  | cons a rest =>
      rw [splitCh]
      cases h : splitCh c rest with
      | nil => simp
      | cons g gs =>
          by_cases hac : a = c <;> simp [hac]

theorem splitCh_not_mem (c : Char) (s : List Char) (h : c ∉ s) :
    splitCh c s = [s] := by
  induction s with
  | nil => rfl
  | cons a rest ih =>
      have hac : ¬ a = c := by
        intro he
        exact h (by simp [he])
      have hrest : c ∉ rest := fun hm => h (List.mem_cons_of_mem a hm)
      rw [splitCh, ih hrest]
      simp [hac]

theorem splitCh_append (c : Char) (x y : List Char) (hx : c ∉ x) :
    splitCh c (x ++ c :: y) = x :: splitCh c y := by
  induction x with
  | nil =>
      rw [List.nil_append, splitCh]
      cases hsy : splitCh c y with
      | nil => exact absurd hsy (splitCh_ne_nil c y)
      | cons g gs => simp
  | cons a xs ih =>
      have hac : ¬ a = c := by
        intro he
        exact hx (by simp [he])
      have hxs : c ∉ xs := fun hm => hx (List.mem_cons_of_mem a hm)
      rw [List.cons_append, splitCh, ih hxs]
      simp [hac]

theorem rsplitHead_six (c : Char) (s P f1 f2 f3 f4 f5 : List Char)
    (hs : splitCh c s = [P, f1, f2, f3, f4, f5]) :
    rsplitHead c 5 s = P := by
  simp [rsplitHead, hs, joinSep]

theorem rstripCh_last_ne (c a : Char) (x : List Char) (h : ¬ a = c) :
    rstripCh c (x ++ [a]) = x ++ [a] := by
  simp [rstripCh, List.dropWhile_cons, h]

theorem mem_joinSep (c : Char) (l : List (List Char)) (ch : Char)
    (h : ch ∈ joinSep c l) : ch = c ∨ ∃ x ∈ l, ch ∈ x := by
  induction l with
  | nil => simp [joinSep] at h
  | cons x rest ih =>
      cases rest with
      | nil =>
          rw [joinSep] at h
          exact Or.inr ⟨x, by simp, h⟩
      | cons y rest2 =>
          rw [joinSep] at h
          rcases List.mem_append.mp h with hx | hcy
          · exact Or.inr ⟨x, by simp, hx⟩
          · rcases List.mem_cons.mp hcy with he | hrest
            · exact Or.inl he
            · rcases ih hrest with hc | ⟨z, hz, hcz⟩
              · exact Or.inl hc
              · exact Or.inr ⟨z, List.mem_cons_of_mem x hz, hcz⟩

theorem mem_renderRow (row : List (List Char)) (ch : Char)
    (h : ch ∈ renderRow row) :
    ch = '[' ∨ ch = ']' ∨ ch = ',' ∨ ∃ lit ∈ row, ch ∈ lit := by
  rw [renderRow] at h
  rcases List.mem_cons.mp h with he | h2
  · exact Or.inl he
  rcases List.mem_append.mp h2 with hj | hb
  · rcases mem_joinSep ',' row ch hj with hc | hx
    · exact Or.inr (Or.inr (Or.inl hc))
    · exact Or.inr (Or.inr (Or.inr hx))
  · rcases List.mem_singleton.mp hb with he
    exact Or.inr (Or.inl he)

theorem rowsBody_chars (rows : List (List (List Char))) (ch : Char)
    (h : ch ∈ rowsBody rows) :
    ch = '[' ∨ ch = ']' ∨ ch = ',' ∨
      ∃ row ∈ rows, ∃ lit ∈ row, ch ∈ lit := by
  rw [rowsBody] at h
  rcases mem_joinSep ',' (rows.map renderRow) ch h with hc | ⟨x, hx, hcx⟩
  · exact Or.inr (Or.inr (Or.inl hc))
  · rcases List.mem_map.mp hx with ⟨row, hrow, hre⟩
    subst hre
    rcases mem_renderRow row ch hcx with e1 | e2 | e3 | ⟨lit, hlit, hch⟩
    · exact Or.inl e1
    · exact Or.inr (Or.inl e2)
    · exact Or.inr (Or.inr (Or.inl e3))
    · exact Or.inr (Or.inr (Or.inr ⟨row, hrow, lit, hlit, hch⟩))

/-- No character outside `[`, `]`, `,` and the number characters occurs in
a well-formed recordset body. -/
theorem rowsBody_not_mem (rows : List (List (List Char)))
    (hrows : WFRows rows) (b : Char) (hb1 : ¬ b = '[') (hb2 : ¬ b = ']')
    (hb3 : ¬ b = ',') (hb4 : numChar b = false) : b ∉ rowsBody rows := by
  intro hmem
  rcases rowsBody_chars rows b hmem with h | h | h | ⟨row, hrow, lit, hlit, hch⟩
  · exact hb1 h
  · exact hb2 h
  · exact hb3 h
  · have := ((hrows row hrow).2 lit hlit).2 b hch
    rw [hb4] at this
    cases this

theorem mkNoise_not_mem (b : Char) (n1 n2 n3 n4 n5 : List Char)
    (hb : ¬ b = '\n') (h1 : b ∉ n1) (h2 : b ∉ n2) (h3 : b ∉ n3)
    (h4 : b ∉ n4) (h5 : b ∉ n5) : b ∉ mkNoise n1 n2 n3 n4 n5 := by
  simp [mkNoise, List.mem_append, List.mem_cons, hb, h1, h2, h3, h4, h5]

theorem filter_mkNoise (p : Char → Bool) (hn : p '\n' = true)
    (n1 n2 n3 n4 n5 : List Char) :
    (mkNoise n1 n2 n3 n4 n5).filter p
      = mkNoise (n1.filter p) (n2.filter p) (n3.filter p) (n4.filter p)
          (n5.filter p) := by
  simp [mkNoise, List.filter_append, List.filter_cons, hn]

/-- `sep.join(chunks)` for a multi-character separator. -/
def joinSub (p : List Char) : List (List Char) → List Char
  | [] => []
  | [x] => x
  | x :: y :: rest => x ++ p ++ joinSub p (y :: rest)

/-- Splitting on a multi-character separator (Python `s.split(sep)`). -/
def splitSub (p : List Char) (s : List Char) : List (List Char) :=
  if hp : p = [] then [s]
  else
    match s with
    | [] => [[]]
    | a :: rest =>
        if p.isPrefixOf (a :: rest) then
          [] :: splitSub p ((a :: rest).drop p.length)
        else
          match splitSub p rest with
          | [] => [[]]
          | g :: gs => (a :: g) :: gs
termination_by s.length
decreasing_by
  · simp only [List.length_drop, List.length_cons]
    cases p with
    | nil => exact absurd rfl hp
    | cons b bs => simp; omega
  · simp

/-- The text between a rendered row's brackets. -/
def rowInner (row : List (List Char)) : List Char := joinSep ',' row

/-- The recordset array text between the outer `[` `]`: empty, or
bracketed rows split at the `],[` row boundaries, each row split at its
commas into the literal number tokens. -/
def parseBody (body : List Char) : Option (List (List (List Char))) :=
  if body = [] then some []
  else if body.head? = some '[' ∧ (body.drop 1).reverse.head? = some ']' then
    some ((splitSub [']', ',', '[']
      (((body.drop 1).reverse.drop 1).reverse)).map
        (fun t => splitCh ',' t))
  else none

/-- The `json.loads(...)["data"]` step of `_prepare_json` on the repaired
text, for the recordset grammar those texts inhabit:
`\x7b"data":[[lit,...],...]\x7d` with literal number tokens; `none` models
the raised exception on any other shape. -/
def loadsData (s : List Char) : Option (List (List (List Char))) :=
  match s with
  | '\x7b' :: '"' :: 'd' :: 'a' :: 't' :: 'a' :: '"' :: ':' :: '[' :: rest =>
      if rest.drop (rest.length - 2) = [']', '\x7d'] then
        parseBody (rest.take (rest.length - 2))
      else none
  | _ => none

/-- `Instrument._prepare_json` (api.py:354-362) end to end: the string
repair followed by `json.loads(...)["data"]`; `none` models any raised
exception. -/
def prepare_json (raw : List Char) : Option (List (List (List Char))) :=
  match prepare_json_text raw with
  | Except.error _ => none
  | Except.ok t => loadsData t

theorem prepare_json_text_eq (raw x y : List Char)
    (hs : splitCh '(' (replaceAll dataPat dataQuoted raw) = [x, y]) :
    prepare_json_text raw =
      Except.ok (rstripCh ',' (rsplitHead '\n' 5 (replaceAll [')'] [] y))
        ++ ['\x7d']) := by
  rw [prepare_json_text, hs]
  rfl

/-- The string-repair pipeline on a payload of the expected shape yields
exactly the canonical JSON serialization of the recordset object. -/
theorem prepare_json_text_family (cb n1 n2 n3 n4 n5 : List Char)
    (rows : List (List (List Char)))
    (hcbd : 'd' ∉ cb) (hcbp : '(' ∉ cb) (hrows : WFRows rows)
    (hw1 : WFNoiseLine n1) (hw2 : WFNoiseLine n2) (hw3 : WFNoiseLine n3)
    (hw4 : WFNoiseLine n4) (hw5 : WFNoiseLine n5) :
    prepare_json_text (mkChartPayload cb rows (mkNoise n1 n2 n3 n4 n5))
      = Except.ok (renderRecordset rows) := by
  obtain ⟨h1n, h1d, h1p⟩ := hw1
  obtain ⟨h2n, h2d, h2p⟩ := hw2
  obtain ⟨h3n, h3d, h3p⟩ := hw3
  obtain ⟨h4n, h4d, h4p⟩ := hw4
  obtain ⟨h5n, h5d, h5p⟩ := hw5
  have hbd : 'd' ∉ rowsBody rows :=
    rowsBody_not_mem rows hrows 'd' (by decide) (by decide) (by decide)
      (by decide)
  have hbp : '(' ∉ rowsBody rows :=
    rowsBody_not_mem rows hrows '(' (by decide) (by decide) (by decide)
      (by decide)
  have hbrp : ')' ∉ rowsBody rows :=
    rowsBody_not_mem rows hrows ')' (by decide) (by decide) (by decide)
      (by decide)
  have hbn : '\n' ∉ rowsBody rows :=
    rowsBody_not_mem rows hrows '\n' (by decide) (by decide) (by decide)
      (by decide)
  have hNd : 'd' ∉ mkNoise n1 n2 n3 n4 n5 :=
    mkNoise_not_mem 'd' n1 n2 n3 n4 n5 (by decide) h1d h2d h3d h4d h5d
  have hNp : '(' ∉ mkNoise n1 n2 n3 n4 n5 :=
    mkNoise_not_mem '(' n1 n2 n3 n4 n5 (by decide) h1p h2p h3p h4p h5p
  -- step 1: data -> "data"
  have hX : 'd' ∉ cb ++ ['(', '\x7b'] := by
    intro h
    rcases List.mem_append.mp h with h | h
    · exact hcbd h
    · exact absurd h (by decide)
  have hZd : 'd' ∉ (':' :: '[' ::
      (rowsBody rows ++ ']' :: mkNoise n1 n2 n3 n4 n5)) := by
    intro h
    rcases List.mem_cons.mp h with h | h
    · exact absurd h (by decide)
    rcases List.mem_cons.mp h with h | h
    · exact absurd h (by decide)
    rcases List.mem_append.mp h with h | h
    · exact hbd h
    rcases List.mem_cons.mp h with h | h
    · exact absurd h (by decide)
    · exact hNd h
  have hassoc1 : mkChartPayload cb rows (mkNoise n1 n2 n3 n4 n5)
      = (cb ++ ['(', '\x7b']) ++ ('d' :: ['a', 't', 'a'] ++
          (':' :: '[' ::
            (rowsBody rows ++ ']' :: mkNoise n1 n2 n3 n4 n5))) := by
    simp [mkChartPayload, dataPat, List.append_assoc]
  have hstep1 : replaceAll dataPat dataQuoted
      (mkChartPayload cb rows (mkNoise n1 n2 n3 n4 n5))
      = (cb ++ ['(', '\x7b']) ++ (dataQuoted ++ (':' :: '[' ::
          (rowsBody rows ++ ']' :: mkNoise n1 n2 n3 n4 n5))) := by
    rw [hassoc1]
    rw [show dataPat = 'd' :: ['a', 't', 'a'] from rfl]
    rw [replaceAll_append 'd' ['a', 't', 'a'] dataQuoted
      (cb ++ ['(', '\x7b']) _ hX]
    rw [replaceAll_pat 'd' ['a', 't', 'a'] dataQuoted _]
    rw [replaceAll_of_not_mem 'd' ['a', 't', 'a'] dataQuoted _ hZd]
  -- step 2: split("(")[1]
  have hYp : '(' ∉ '\x7b' :: (dataQuoted ++ (':' :: '[' ::
      (rowsBody rows ++ ']' :: mkNoise n1 n2 n3 n4 n5))) := by
    intro h
    rcases List.mem_cons.mp h with h | h
    · exact absurd h (by decide)
    rcases List.mem_append.mp h with h | h
    · exact absurd h (by decide)
    rcases List.mem_cons.mp h with h | h
    · exact absurd h (by decide)
    rcases List.mem_cons.mp h with h | h
    · exact absurd h (by decide)
    rcases List.mem_append.mp h with h | h
    · exact hbp h
    rcases List.mem_cons.mp h with h | h
    · exact absurd h (by decide)
    · exact hNp h
  have hassoc2 : (cb ++ ['(', '\x7b']) ++ (dataQuoted ++ (':' :: '[' ::
      (rowsBody rows ++ ']' :: mkNoise n1 n2 n3 n4 n5)))
      = cb ++ '(' :: ('\x7b' :: (dataQuoted ++ (':' :: '[' ::
          (rowsBody rows ++ ']' :: mkNoise n1 n2 n3 n4 n5)))) := by
    simp [List.append_assoc]
  have hsplit : splitCh '(' (replaceAll dataPat dataQuoted
      (mkChartPayload cb rows (mkNoise n1 n2 n3 n4 n5)))
      = [cb, '\x7b' :: (dataQuoted ++ (':' :: '[' ::
          (rowsBody rows ++ ']' :: mkNoise n1 n2 n3 n4 n5)))] := by
    rw [hstep1, hassoc2, splitCh_append '(' cb _ hcbp,
      splitCh_not_mem '(' _ hYp]
  rw [prepare_json_text_eq _ cb _ hsplit]
  -- step 3: delete ")"
  have hstep3 : replaceAll [')'] [] ('\x7b' :: (dataQuoted ++ (':' :: '[' ::
      (rowsBody rows ++ ']' :: mkNoise n1 n2 n3 n4 n5))))
      = ('\x7b' :: (dataQuoted ++ (':' :: '[' ::
          (rowsBody rows ++ [']'])))) ++ mkNoise
            (n1.filter (fun a => a ≠ ')')) (n2.filter (fun a => a ≠ ')'))
            (n3.filter (fun a => a ≠ ')')) (n4.filter (fun a => a ≠ ')'))
            (n5.filter (fun a => a ≠ ')')) := by
    rw [replaceAll_paren]
    have hassoc3 : '\x7b' :: (dataQuoted ++ (':' :: '[' ::
        (rowsBody rows ++ ']' :: mkNoise n1 n2 n3 n4 n5)))
        = ('\x7b' :: (dataQuoted ++ (':' :: '[' ::
            (rowsBody rows ++ [']'])))) ++ mkNoise n1 n2 n3 n4 n5 := by
      simp [List.append_assoc]
    rw [hassoc3, List.filter_append]
    have hP0 : ('\x7b' :: (dataQuoted ++ (':' :: '[' ::
        (rowsBody rows ++ [']'])))).filter (fun a => a ≠ ')')
        = '\x7b' :: (dataQuoted ++ (':' :: '[' ::
            (rowsBody rows ++ [']']))) := by
      rw [List.filter_eq_self]
      intro a ha
      simp only [decide_eq_true_eq]
      intro he
      subst he
      rcases List.mem_cons.mp ha with h | h
      · exact absurd h (by decide)
      rcases List.mem_append.mp h with h | h
      · exact absurd h (by decide)
      rcases List.mem_cons.mp h with h | h
      · exact absurd h (by decide)
      rcases List.mem_cons.mp h with h | h
      · exact absurd h (by decide)
      rcases List.mem_append.mp h with h | h
      · exact hbrp h
      · exact absurd (List.mem_singleton.mp h) (by decide)
    rw [hP0, filter_mkNoise (fun a => a ≠ ')') (by decide)]
  rw [hstep3]
  -- step 4: rsplit("\n", 5)[0]
  have hg1 : '\n' ∉ n1.filter (fun a => a ≠ ')') :=
    fun h => h1n (List.mem_of_mem_filter h)
  have hg2 : '\n' ∉ n2.filter (fun a => a ≠ ')') :=
    fun h => h2n (List.mem_of_mem_filter h)
  have hg3 : '\n' ∉ n3.filter (fun a => a ≠ ')') :=
    fun h => h3n (List.mem_of_mem_filter h)
  have hg4 : '\n' ∉ n4.filter (fun a => a ≠ ')') :=
    fun h => h4n (List.mem_of_mem_filter h)
  have hg5 : '\n' ∉ n5.filter (fun a => a ≠ ')') :=
    fun h => h5n (List.mem_of_mem_filter h)
  have hP0n : '\n' ∉ '\x7b' :: (dataQuoted ++ (':' :: '[' ::
      (rowsBody rows ++ [']']))) := by
    intro h
    rcases List.mem_cons.mp h with h | h
    · exact absurd h (by decide)
    rcases List.mem_append.mp h with h | h
    · exact absurd h (by decide)
    rcases List.mem_cons.mp h with h | h
    · exact absurd h (by decide)
    rcases List.mem_cons.mp h with h | h
    · exact absurd h (by decide)
    rcases List.mem_append.mp h with h | h
    · exact hbn h
    · exact absurd (List.mem_singleton.mp h) (by decide)
  have hsplit5 : splitCh '\n'
      (('\x7b' :: (dataQuoted ++ (':' :: '[' ::
          (rowsBody rows ++ [']'])))) ++ mkNoise
            (n1.filter (fun a => a ≠ ')')) (n2.filter (fun a => a ≠ ')'))
            (n3.filter (fun a => a ≠ ')')) (n4.filter (fun a => a ≠ ')'))
            (n5.filter (fun a => a ≠ ')')))
      = [('\x7b' :: (dataQuoted ++ (':' :: '[' ::
            (rowsBody rows ++ [']'])))),
         n1.filter (fun a => a ≠ ')'), n2.filter (fun a => a ≠ ')'),
         n3.filter (fun a => a ≠ ')'), n4.filter (fun a => a ≠ ')'),
         n5.filter (fun a => a ≠ ')')] := by
    rw [mkNoise]
    rw [splitCh_append '\n' _ _ hP0n]
    rw [splitCh_append '\n' _ _ hg1]
    rw [splitCh_append '\n' _ _ hg2]
    rw [splitCh_append '\n' _ _ hg3]
    rw [splitCh_append '\n' _ _ hg4]
    rw [splitCh_not_mem '\n' _ hg5]
  rw [rsplitHead_six '\n' _ _ _ _ _ _ _ hsplit5]
  -- step 5: rstrip(",") and the final "}"
  have hassoc4 : '\x7b' :: (dataQuoted ++ (':' :: '[' ::
      (rowsBody rows ++ [']'])))
      = ('\x7b' :: (dataQuoted ++ (':' :: '[' :: rowsBody rows))) ++ [']'] := by
    simp [List.append_assoc]
  rw [hassoc4, rstripCh_last_ne ',' ']' _ (by decide)]
  rw [renderRecordset]
  simp [List.append_assoc]

theorem splitSub_not_head (c : Char) (cs s : List Char) (h : c ∉ s) :
    splitSub (c :: cs) s = [s] := by
  induction s with
  | nil => simp [splitSub]
  | cons a rest ih =>
      have hca : ¬ c = a := by
        intro he
        exact h (by simp [he])
      have hrest : c ∉ rest := fun hm => h (List.mem_cons_of_mem a hm)
      rw [splitSub]
      simp [isPrefixOf_cons_neq c a cs rest hca, ih hrest]

theorem splitSub_append (c : Char) (cs x y : List Char) (hx : c ∉ x) :
    splitSub (c :: cs) (x ++ (c :: cs) ++ y) = x :: splitSub (c :: cs) y := by
  induction x with
  | nil =>
      have hpre : (c :: cs).isPrefixOf (c :: (cs ++ y)) = true := by
        have := isPrefixOf_self_append (c :: cs) y
        simpa using this
      have hdrop : (c :: (cs ++ y)).drop (c :: cs).length = y := by
        have := List.drop_left (c :: cs) y
        simpa using this
      simp only [List.nil_append, List.cons_append]
      rw [splitSub]
      simp [hpre, hdrop]
  | cons a xs ih =>
      have hca : ¬ c = a := by
        intro he
        exact hx (by simp [he])
      have hxs : c ∉ xs := fun hm => hx (List.mem_cons_of_mem a hm)
      simp only [List.cons_append]
      rw [splitSub]
      simp only [isPrefixOf_cons_neq c a cs _ hca, Bool.false_eq_true,
        if_false]
      have := ih hxs
      simp only [List.cons_append] at this
      rw [this]
      simp

theorem splitSub_joinSub (c : Char) (cs : List Char)
    (parts : List (List Char)) (hne : parts ≠ [])
    (hp : ∀ part ∈ parts, c ∉ part) :
    splitSub (c :: cs) (joinSub (c :: cs) parts) = parts := by
  induction parts with
  | nil => exact absurd rfl hne
  | cons x rest ih =>
      cases rest with
      | nil =>
          rw [joinSub]
          exact splitSub_not_head c cs x (hp x (by simp))
      | cons y rest2 =>
          rw [joinSub, splitSub_append c cs x _ (hp x (by simp))]
          rw [ih (by simp)
            (fun part hpart => hp part (List.mem_cons_of_mem x hpart))]

theorem splitCh_joinSep (c : Char) (row : List (List Char)) (hne : row ≠ [])
    (hc : ∀ lit ∈ row, c ∉ lit) :
    splitCh c (joinSep c row) = row := by
  induction row with
  | nil => exact absurd rfl hne
  | cons x rest ih =>
      cases rest with
      | nil =>
          rw [joinSep]
          exact splitCh_not_mem c x (hc x (by simp))
      | cons y rest2 =>
          rw [joinSep, splitCh_append c x _ (hc x (by simp))]
          rw [ih (by simp)
            (fun lit hlit => hc lit (List.mem_cons_of_mem x hlit))]

theorem rowInner_chars (row : List (List Char))
    (hw : ∀ lit ∈ row, WFLit lit) (ch : Char) (h : ch ∈ rowInner row) :
    ch = ',' ∨ numChar ch = true := by
  rcases mem_joinSep ',' row ch h with hc | ⟨lit, hlit, hch⟩
  · exact Or.inl hc
  · exact Or.inr ((hw lit hlit).2 ch hch)

theorem rowsBody_eq_join (rows : List (List (List Char)))
    (hne : rows ≠ []) :
    rowsBody rows
      = '[' :: (joinSub [']', ',', '['] (rows.map rowInner) ++ [']']) := by
  induction rows with
  | nil => exact absurd rfl hne
  | cons r rest ih =>
      cases rest with
      | nil => simp [rowsBody, renderRow, joinSub, joinSep, rowInner]
      | cons r2 rest2 =>
          have hJ : rowsBody (r :: r2 :: rest2)
              = renderRow r ++ ',' :: rowsBody (r2 :: rest2) := by
            simp [rowsBody, joinSep]
          rw [hJ, ih (by simp)]
          simp [renderRow, rowInner, joinSub, List.append_assoc]

theorem parseBody_cons (J : List Char) :
    parseBody ('[' :: (J ++ [']']))
      = some ((splitSub [']', ',', '['] J).map (fun t => splitCh ',' t)) := by
  have h1 : ('[' :: (J ++ [']']) : List Char) ≠ [] := by simp
  rw [parseBody, if_neg h1]
  have hcond : (('[' :: (J ++ [']'])) : List Char).head? = some '[' ∧
      ((('[' :: (J ++ [']'])) : List Char).drop 1).reverse.head?
        = some ']' := by
    constructor
    · rfl
    · simp
  rw [if_pos hcond]
  have hJ : (((('[' :: (J ++ [']'])) : List Char).drop 1).reverse.drop
      1).reverse = J := by
    simp
  rw [hJ]

theorem loadsData_render (rows : List (List (List Char)))
    (hrows : WFRows rows) : loadsData (renderRecordset rows) = some rows := by
  cases rows with
  | nil => rfl
  | cons r rest =>
      show loadsData ('\x7b' :: '"' :: 'd' :: 'a' :: 't' :: 'a' :: '"' ::
        ':' :: '[' :: (rowsBody (r :: rest) ++ [']', '\x7d']))
          = some (r :: rest)
      rw [loadsData]
      have hlen : (rowsBody (r :: rest) ++ [']', '\x7d']).length - 2
          = (rowsBody (r :: rest)).length := by
        simp [List.length_append]
      rw [hlen, List.drop_left, List.take_left, if_pos rfl]
      rw [rowsBody_eq_join (r :: rest) (by simp)]
      rw [parseBody_cons]
      have hsplit : splitSub [']', ',', '[']
          (joinSub [']', ',', '['] ((r :: rest).map rowInner))
          = (r :: rest).map rowInner := by
        apply splitSub_joinSub
        · simp
        · intro part hpart
          rcases List.mem_map.mp hpart with ⟨row, hrow, hre⟩
          subst hre
          intro hmem
          rcases rowInner_chars row ((hrows row hrow).2) ']' hmem with h | h
          · exact absurd h (by decide)
          · exact absurd h (by decide)
      rw [hsplit, List.map_map]
      have hmap : ((r :: rest).map ((fun t => splitCh ',' t) ∘ rowInner))
          = r :: rest := by
        have hcong : ∀ row ∈ r :: rest,
            ((fun t => splitCh ',' t) ∘ rowInner) row = id row := by
          intro row hrow
          show splitCh ',' (rowInner row) = row
          apply splitCh_joinSep ',' row (hrows row hrow).1
          intro lit hlit hmem
          have := ((hrows row hrow).2 lit hlit).2 ',' hmem
          exact absurd this (by decide)
        rw [List.map_congr_left hcong, List.map_id]
      rw [hmap]

/-- C8: on a JSONP chart payload of the expected shape —
`callback({data:[rows]` followed by five junk lines holding the wrapper's
trailing `)`/`\x7d` and other noise — `_prepare_json` strips the
callback-invocation wrapper, quotes the bare `data` key, trims the
trailing noise, and the remaining text is exactly the canonical JSON
serialization of the object whose `data` member is the recordset, which
the `json.loads(...)["data"]` step then returns.  Shape hypotheses: the
callback name holds no `(` and no `d` (true of the source's
`getChart{id}{resolution}` names), the rows are nonempty lists of number
tokens, and the noise lines hold no newline, no `(` and no `d`. -/
theorem c8_prepare_json (cb n1 n2 n3 n4 n5 : List Char)
    (rows : List (List (List Char)))
    (hcbd : 'd' ∉ cb) (hcbp : '(' ∉ cb) (hrows : WFRows rows)
    (hw1 : WFNoiseLine n1) (hw2 : WFNoiseLine n2) (hw3 : WFNoiseLine n3)
    (hw4 : WFNoiseLine n4) (hw5 : WFNoiseLine n5) :
    prepare_json_text (mkChartPayload cb rows (mkNoise n1 n2 n3 n4 n5))
      = Except.ok (renderRecordset rows) ∧
    prepare_json (mkChartPayload cb rows (mkNoise n1 n2 n3 n4 n5))
      = some rows := by
  have ht := prepare_json_text_family cb n1 n2 n3 n4 n5 rows hcbd hcbp
    hrows hw1 hw2 hw3 hw4 hw5
  refine ⟨ht, ?_⟩
  rw [prepare_json, ht]
  exact loadsData_render rows hrows

instance (lit : List Char) : Decidable (WFLit lit) := by
  unfold WFLit
  infer_instance

instance (rows : List (List (List Char))) : Decidable (WFRows rows) := by
  unfold WFRows
  infer_instance

instance (n : List Char) : Decidable (WFNoiseLine n) := by
  unfold WFNoiseLine
  infer_instance

theorem c8_witness :
    prepare_json_text (mkChartPayload ("getChart123week".toList)
        [[['9'], ['1', '0']], [['3'], ['4', '.', '5']]]
        (mkNoise [] [']', ')', ';'] [] [','] []))
      = Except.ok (renderRecordset [[['9'], ['1', '0']], [['3'], ['4', '.', '5']]]) ∧
    prepare_json (mkChartPayload ("getChart123week".toList)
        [[['9'], ['1', '0']], [['3'], ['4', '.', '5']]]
        (mkNoise [] [']', ')', ';'] [] [','] []))
      = some [[['9'], ['1', '0']], [['3'], ['4', '.', '5']]] :=
  c8_prepare_json ("getChart123week".toList) [] [']', ')', ';'] [] [','] []
    [[['9'], ['1', '0']], [['3'], ['4', '.', '5']]]
    (by decide) (by decide) (by decide) (by decide) (by decide) (by decide)
    (by decide) (by decide)

end PyOnvista
